import Mathlib

/-!
Verification of the book-catalog REST API (Express + Supabase backend).

The two pieces of logic under specification are the comment retention
manager (POST /books/:id/comments — cap of 20 comments per book, oldest
evicted) and the rating aggregator (POST /books/:id/rate — running mean
update).  The store (Supabase tables `books` and `comments`) is embedded
as an explicit state record; each handler is a function from a store and
request parameters to a new store and an HTTP-level response.  Store
calls that can fail in the real system (network, constraint violations)
are modelled by fault flags, one per call site, so that the error
propagation of the handlers can be examined.

Numeric semantics: `average_rating` is a JavaScript number; here it is
embedded as `Rat`, which realises the weighted-mean formula exactly.
A book id is the result of `parseInt` on the path parameter, embedded as
`Option Int` (`none` for `NaN`).
-/

namespace BookApp

/-- A row of the `books` table, restricted to the columns the handlers
select or mutate. -/
structure Book where
  id : Int
  title : String
  author : String
  image_url : String
  description : String
  pages : Int
  year : Int
  category_id : Int
  total_votes : Nat
  average_rating : Rat
  age_range : String
deriving DecidableEq, Repr

/-- A row of the `comments` table: serial id, owning book, text, and the
creation timestamp assigned by the store at insertion time. -/
structure Comment where
  id : Nat
  book_id : Int
  comment_text : String
  created_at : Nat
deriving DecidableEq, Repr

/-- The durable state owned by the external store: the two tables, the
next serial comment id, and the clock used for creation timestamps. -/
structure Store where
  books : List Book
  comments : List Comment
  nextCommentId : Nat
  now : Nat
deriving DecidableEq, Repr

/-- Error taxonomy of the handlers: 404, 400, and 500 responses. -/
inductive ApiError where
  | notFound
  | invalidArgument
  | storeFailure
deriving DecidableEq, Repr

deriving instance DecidableEq for Except

/-- Supabase `from('books').select(...).eq('id', bookId).single()`:
the first (in a real table, unique) book whose id matches. -/
def findBookById (s : Store) (n : Int) : Option Book :=
  s.books.find? (fun b => b.id == n)

/-- All comments of one book, in table order. -/
def bookComments (s : Store) (n : Int) : List Comment :=
  s.comments.filter (fun c => c.book_id == n)

/-- Creation-timestamp order, the `order('created_at', ascending)` sort key. -/
def commentOrder (a b : Comment) : Prop := a.created_at ≤ b.created_at

instance : DecidableRel commentOrder := fun a b => Nat.decLe a.created_at b.created_at

instance : IsTotal Comment commentOrder := ⟨fun a b => Nat.le_total a.created_at b.created_at⟩

instance : IsTrans Comment commentOrder := ⟨fun _ _ _ => Nat.le_trans⟩

/-- Supabase `from('comments').select('*').eq('book_id', bookId)
.order('created_at', ascending)`: the book's comments sorted by creation
timestamp, ties keeping table order (stable insertion sort). -/
def listCommentsByBook (s : Store) (n : Int) : List Comment :=
  List.insertionSort commentOrder (bookComments s n)

/-- The comment row created by `insert([{ book_id: bookId, comment_text }])`:
the store assigns the id and the creation timestamp. -/
def newComment (s : Store) (n : Int) (text : String) : Comment :=
  ⟨s.nextCommentId, n, text, s.now⟩

/-- Supabase `from('comments').insert([{ book_id: bookId, comment_text }])`. -/
def insertComment (s : Store) (n : Int) (text : String) : Store :=
  { s with
    comments := s.comments ++ [newComment s n text],
    nextCommentId := s.nextCommentId + 1,
    now := s.now + 1 }

/-- Supabase `from('comments').delete().eq('id', cid)`. -/
def deleteComment (s : Store) (cid : Nat) : Store :=
  { s with comments := s.comments.filter (fun c => c.id != cid) }

/-- Supabase `from('books').update({ total_votes, average_rating })
.eq('id', bookId)`: a single update writing the two rating fields. -/
def updateBookRating (s : Store) (n : Int) (votes : Nat) (avg : Rat) : Store :=
  { s with books := s.books.map (fun b =>
      if b.id == n then { b with total_votes := votes, average_rating := avg } else b) }

/-- Fault flags for the five store calls of the comment handler. -/
structure CFaults where
  onLookup : Bool
  onInsert : Bool
  onList : Bool
  onDelete : Bool
  onReadback : Bool
deriving DecidableEq, Repr

/-- The fault-free environment. -/
def CFaults.ok : CFaults := ⟨false, false, false, false, false⟩

/-- Fault flags for the three store calls of the rating handler. -/
structure RFaults where
  onLookup : Bool
  onUpdate : Bool
  onReadback : Bool
deriving DecidableEq, Repr

/-- The fault-free environment. -/
def RFaults.ok : RFaults := ⟨false, false, false⟩

/-- POST /books/:id/comments.  Faithful translation of the handler:
1. look the book up (`.single()` on a missing row errors, and the code
   turns both a lookup error and a missing row into a 404);
2. insert the comment;
3. read back all of the book's comments ordered by `created_at` asc;
4. if more than 20, delete the first of that ordered list — the result
   of this delete call is discarded by the code, so a delete fault does
   not stop the handler;
5. re-read the book and answer 201 with its projection.
Returns the final store together with the response. -/
def addComment (flt : CFaults) (s : Store) (idp : Option Int) (text : String) :
    Store × Except ApiError (Book × List Comment) :=
  match idp with
  | none => (s, Except.error ApiError.notFound)
  | some bookId =>
    if flt.onLookup then (s, Except.error ApiError.notFound)
    else match findBookById s bookId with
      | none => (s, Except.error ApiError.notFound)
      | some _ =>
        if flt.onInsert then (s, Except.error ApiError.storeFailure)
        else
          let s1 := insertComment s bookId text
          if flt.onList then (s1, Except.error ApiError.storeFailure)
          else
            let cs := listCommentsByBook s1 bookId
            let s2 := if cs.length > 20 then
                match cs.head? with
                | some oldest => if flt.onDelete then s1 else deleteComment s1 oldest.id
                | none => s1
              else s1
            if flt.onReadback then (s2, Except.error ApiError.storeFailure)
            else match findBookById s2 bookId with
              | none => (s2, Except.error ApiError.storeFailure)
              | some b2 => (s2, Except.ok (b2, bookComments s2 bookId))

/-- POST /books/:id/rate.  Faithful translation of the handler:
1. reject with 400 when `rating < 1 || rating > 5`, before any store
   access;
2. look the book up (error or missing row gives 404);
3. compute the incremented vote count and the weighted-mean rating;
4. write both fields in one update;
5. re-read the book and answer 200 with its projection.
Returns the final store together with the response. -/
def rateBook (flt : RFaults) (s : Store) (idp : Option Int) (rating : Rat) :
    Store × Except ApiError (Book × List Comment) :=
  if rating < 1 ∨ rating > 5 then (s, Except.error ApiError.invalidArgument)
  else match idp with
    | none => (s, Except.error ApiError.notFound)
    | some bookId =>
      if flt.onLookup then (s, Except.error ApiError.notFound)
      else match findBookById s bookId with
        | none => (s, Except.error ApiError.notFound)
        | some book =>
          let newTotalVotes := book.total_votes + 1
          let newAverageRating :=
            (book.average_rating * (book.total_votes : Rat) + rating) / (newTotalVotes : Rat)
          if flt.onUpdate then (s, Except.error ApiError.storeFailure)
          else
            let s1 := updateBookRating s bookId newTotalVotes newAverageRating
            if flt.onReadback then (s1, Except.error ApiError.storeFailure)
            else match findBookById s1 bookId with
              | none => (s1, Except.error ApiError.storeFailure)
              | some b2 => (s1, Except.ok (b2, bookComments s1 bookId))

/-- Sequential application of the rating handler, threading the store. -/
def rateSeq (s : Store) (idp : Option Int) (rs : List Rat) : Store :=
  rs.foldl (fun st r => (rateBook RFaults.ok st idp r).1) s

/-- Well-formedness of a store, as guaranteed by the real database:
comment ids are unique and below the next serial id, creation
timestamps are in the past, and book ids are unique. -/
def Store.WF (s : Store) : Prop :=
  ((s.comments.map Comment.id).Nodup ∧ (s.books.map Book.id).Nodup) ∧
    (∀ c ∈ s.comments, c.id < s.nextCommentId) ∧
    (∀ c ∈ s.comments, c.created_at < s.now)

instance (s : Store) : Decidable s.WF := by
  unfold Store.WF
  infer_instance

/-- A sample book with no votes yet. -/
def book1 : Book := ⟨1, "t", "a", "u", "d", 10, 2000, 1, 0, 0, "6+"⟩

/-- A sample comment on book 1, with id and timestamp `i`. -/
def mkComment (i : Nat) : Comment := ⟨i, 1, "c", i⟩

/-- A store holding one fresh book and no comments. -/
def store0 : Store := ⟨[book1], [], 1, 1⟩

/-- A store holding one book that already carries 20 comments with
strictly increasing timestamps 1 < 2 < ... < 20. -/
def store20 : Store := ⟨[book1], (List.range 20).map (fun i => mkComment (i + 1)), 21, 21⟩

/-! ### Helper lemmas: the rating handler -/

/-- Auxiliary form of the rating formula, as computed by the handler. -/
def ratingStep (b : Book) (r : Rat) : Rat :=
  (b.average_rating * (b.total_votes : Rat) + r) / ((b.total_votes + 1 : Nat) : Rat)

/-- The book produced by the rating update. -/
def ratedBook (b : Book) (r : Rat) : Book :=
  { b with total_votes := b.total_votes + 1, average_rating := ratingStep b r }

theorem find?_map_update (l : List Book) (n : Int) (v : Nat) (a : Rat) (b : Book)
    (hb : l.find? (fun x => x.id == n) = some b) :
    (l.map (fun x => if x.id == n then { x with total_votes := v, average_rating := a } else x)).find?
      (fun x => x.id == n) = some { b with total_votes := v, average_rating := a } := by
  induction l with
  | nil => simp [List.find?] at hb
  | cons hd t ih =>
    rw [List.find?_cons] at hb
    by_cases hid : (hd.id == n)
    · simp only [hid] at hb
      injection hb with hb
      subst hb
      have hid2 : hd.id = n := by simpa using hid
      simp [List.map_cons, List.find?_cons, hid2]
    · simp only [hid] at hb
      have hid3 : (hd.id == n) = false := by simpa using hid
      simp only [List.map_cons, List.find?_cons]
      rw [if_neg hid, hid3]
      exact ih hb

theorem findBookById_updateBookRating (s : Store) (n : Int) (v : Nat) (a : Rat) (b : Book)
    (hb : findBookById s n = some b) :
    findBookById (updateBookRating s n v a) n =
      some { b with total_votes := v, average_rating := a } :=
  find?_map_update s.books n v a b hb

/-- Success equation of the rating handler: with a valid rating and an
existing book, the handler performs exactly the two-field update and
returns the updated book. -/
theorem rateBook_ok_eq (s : Store) (n : Int) (b : Book) (r : Rat)
    (hb : findBookById s n = some b) (hr : ¬(r < 1 ∨ r > 5)) :
    rateBook RFaults.ok s (some n) r =
      (updateBookRating s n (b.total_votes + 1) (ratingStep b r),
        Except.ok (ratedBook b r,
          bookComments (updateBookRating s n (b.total_votes + 1) (ratingStep b r)) n)) := by
  have hupd := findBookById_updateBookRating s n (b.total_votes + 1)
    ((b.average_rating * (b.total_votes : Rat) + r) / ((b.total_votes + 1 : Nat) : Rat)) b hb
  unfold rateBook
  rw [if_neg hr]
  simp only [RFaults.ok, hb, Bool.false_eq_true, if_false]
  rw [hupd]
  rfl

/-! ### Helper lemmas: the comment handler -/

theorem bookComments_insertComment (s : Store) (n : Int) (text : String) :
    bookComments (insertComment s n text) n = bookComments s n ++ [newComment s n text] := by
  simp [bookComments, insertComment, newComment]

theorem bookComments_deleteComment (s : Store) (n : Int) (k : Nat) :
    bookComments (deleteComment s k) n = (bookComments s n).filter (fun c => c.id != k) := by
  simp only [bookComments, deleteComment, List.filter_filter]
  rw [List.filter_congr]
  intro c hc
  exact Bool.and_comm _ _

/-- The first element of the `created_at`-sorted comment list is a member
of the unsorted list and carries its least timestamp. -/
theorem head?_sort_min (l : List Comment) (o : Comment)
    (h : (List.insertionSort commentOrder l).head? = some o) :
    o ∈ l ∧ ∀ c ∈ l, o.created_at ≤ c.created_at := by
  have hs := List.sorted_insertionSort commentOrder l
  obtain ⟨t, ht⟩ := List.head?_eq_some_iff.mp h
  constructor
  · have hm : o ∈ List.insertionSort commentOrder l := by
      rw [ht]
      exact List.mem_cons_self o t
    exact (List.mem_insertionSort commentOrder).mp hm
  · intro c hc
    have hcm : c ∈ List.insertionSort commentOrder l :=
      (List.mem_insertionSort commentOrder).mpr hc
    rw [ht] at hcm hs
    rcases List.mem_cons.mp hcm with rfl | hct
    · exact Nat.le_refl _
    · exact (List.pairwise_cons.mp hs).1 c hct

/-- Success equation of the comment handler: with an existing book the
handler inserts the new comment and, when the book then holds more than
20 comments, deletes the one with the least timestamp. -/
theorem addComment_spec (s : Store) (n : Int) (text : String) (b : Book)
    (hb : findBookById s n = some b) :
    ∃ s' : Store,
      addComment CFaults.ok s (some n) text = (s', Except.ok (b, bookComments s' n)) ∧
      (((bookComments s n).length + 1 ≤ 20 ∧ s' = insertComment s n text) ∨
        ((bookComments s n).length + 1 > 20 ∧ ∃ o,
          o ∈ bookComments s n ++ [newComment s n text] ∧
          (∀ c ∈ bookComments s n ++ [newComment s n text], o.created_at ≤ c.created_at) ∧
          s' = deleteComment (insertComment s n text) o.id)) := by
  have hlen : (listCommentsByBook (insertComment s n text) n).length
      = (bookComments s n).length + 1 := by
    simp only [listCommentsByBook, List.length_insertionSort, bookComments_insertComment,
      List.length_append, List.length_cons, List.length_nil]
  by_cases hcap : (listCommentsByBook (insertComment s n text) n).length > 20
  · obtain ⟨o, t, ht⟩ : ∃ o t, listCommentsByBook (insertComment s n text) n = o :: t := by
      cases hl : listCommentsByBook (insertComment s n text) n with
      | nil => rw [hl] at hcap; simp at hcap
      | cons o t => exact ⟨o, t, rfl⟩
    have hhead : (listCommentsByBook (insertComment s n text) n).head? = some o := by
      rw [ht]
      rfl
    have hmin := head?_sort_min (bookComments (insertComment s n text) n) o hhead
    rw [bookComments_insertComment] at hmin
    have hf2 : findBookById (deleteComment (insertComment s n text) o.id) n = some b := hb
    refine ⟨deleteComment (insertComment s n text) o.id, ?_,
      Or.inr ⟨by omega, o, hmin.1, hmin.2, rfl⟩⟩
    unfold addComment
    simp only [CFaults.ok, Bool.false_eq_true, if_false, hb]
    rw [if_pos hcap, hhead]
    simp only [Bool.false_eq_true, if_false, hf2]
  · have hf1 : findBookById (insertComment s n text) n = some b := hb
    refine ⟨insertComment s n text, ?_, Or.inl ⟨by omega, rfl⟩⟩
    unfold addComment
    simp only [CFaults.ok, Bool.false_eq_true, if_false, hb]
    rw [if_neg hcap]
    simp only [Bool.false_eq_true, if_false, hf1]

/-! ### Helper lemmas: store well-formedness -/

theorem insertComment_WF (s : Store) (n : Int) (text : String) (hwf : s.WF) :
    (insertComment s n text).WF := by
  obtain ⟨⟨hnc, hnb⟩, hid, hts⟩ := hwf
  refine ⟨⟨?_, hnb⟩, ?_, ?_⟩
  · simp only [insertComment, newComment, List.map_append, List.map_cons, List.map_nil]
    rw [List.nodup_append]
    refine ⟨hnc, List.nodup_singleton _, ?_⟩
    intro a ha ha2
    simp only [List.mem_singleton] at ha2
    obtain ⟨c, hc, rfl⟩ := List.mem_map.mp ha
    have := hid c hc
    omega
  · intro c hc
    rcases List.mem_append.mp hc with hold | hnew
    · have := hid c hold
      simp only [insertComment]
      omega
    · simp only [List.mem_singleton] at hnew
      subst hnew
      simp [newComment, insertComment]
  · intro c hc
    rcases List.mem_append.mp hc with hold | hnew
    · have := hts c hold
      simp only [insertComment]
      omega
    · simp only [List.mem_singleton] at hnew
      subst hnew
      simp [newComment, insertComment]

theorem deleteComment_WF (s : Store) (k : Nat) (hwf : s.WF) : (deleteComment s k).WF := by
  obtain ⟨⟨hnc, hnb⟩, hid, hts⟩ := hwf
  have hsub : (deleteComment s k).comments.Sublist s.comments := List.filter_sublist _
  refine ⟨⟨List.Nodup.sublist (hsub.map Comment.id) hnc, hnb⟩, ?_, ?_⟩
  · intro c hc
    exact hid c (hsub.subset hc)
  · intro c hc
    exact hts c (hsub.subset hc)

theorem addComment_WF (s : Store) (n : Int) (text : String) (b : Book)
    (hwf : s.WF) (hb : findBookById s n = some b) :
    ((addComment CFaults.ok s (some n) text).1).WF := by
  obtain ⟨s', heq, hcase⟩ := addComment_spec s n text b hb
  rw [heq]
  rcases hcase with ⟨-, rfl⟩ | ⟨-, o, -, -, rfl⟩
  · exact insertComment_WF s n text hwf
  · exact deleteComment_WF _ _ (insertComment_WF s n text hwf)

/-! ### Helper lemmas: filtered lists with unique keys -/

theorem length_filter_ne_of_mem {l : List Comment} {o : Comment}
    (hnd : (l.map Comment.id).Nodup) (ho : o ∈ l) :
    (l.filter (fun c => c.id != o.id)).length + 1 = l.length := by
  induction l with
  | nil => cases ho
  | cons hd t ih =>
    rw [List.map_cons, List.nodup_cons] at hnd
    rcases List.mem_cons.mp ho with rfl | hmem
    · have hft : t.filter (fun c => c.id != o.id) = t := by
        rw [List.filter_eq_self]
        intro c hc
        simp only [bne_iff_ne, ne_eq, decide_eq_true_eq]
        intro hcontra
        exact hnd.1 (hcontra ▸ List.mem_map_of_mem Comment.id hc)
      simp [List.filter_cons, hft]
    · have hne : (hd.id != o.id) = true := by
        simp only [bne_iff_ne, ne_eq]
        intro he
        exact hnd.1 (he ▸ List.mem_map_of_mem Comment.id hmem)
      have hih := ih hnd.2 hmem
      simp only [List.filter_cons, hne, if_true, List.length_cons]
      omega

theorem mem_filter_ne {l : List Comment} {c o : Comment}
    (hc : c ∈ l) (hne : c.id ≠ o.id) : c ∈ l.filter (fun x => x.id != o.id) :=
  List.mem_filter.mpr ⟨hc, by simpa using hne⟩

theorem comment_id_inj {l : List Comment} (hnd : (l.map Comment.id).Nodup)
    {c d : Comment} (hc : c ∈ l) (hdm : d ∈ l) (he : c.id = d.id) : c = d :=
  List.inj_on_of_nodup_map hnd hc hdm he

/-! ### Helper lemmas: sequences of ratings -/

/-- Invariant 'running mean of the ratings seen so far', carried through a
sequence of valid ratings. -/
theorem rateSeq_invariant_aux (rs : List Rat) :
    ∀ (s : Store) (n : Int) (b : Book) (k : Nat) (q : Rat),
      findBookById s n = some b →
      (∀ r ∈ rs, ¬(r < 1 ∨ r > 5)) →
      b.total_votes = k → b.average_rating = q / (k : Rat) → (k = 0 → q = 0) →
      ∃ b', findBookById (rateSeq s (some n) rs) n = some b' ∧
        b'.total_votes = k + rs.length ∧
        b'.average_rating = (q + rs.sum) / ((k : Rat) + rs.length) ∧
        (k + rs.length = 0 → q + rs.sum = 0) := by
  induction rs with
  | nil =>
    intro s n b k q hb hval hv ha hz
    refine ⟨b, by simpa [rateSeq] using hb, by simpa using hv, ?_, ?_⟩
    · simpa using ha
    · intro h
      simp only [List.length_nil, Nat.add_zero] at h
      simp [hz h, List.sum_nil]
  | cons r tl ih =>
    intro s n b k q hb hval hv ha hz
    have hr := hval r (List.mem_cons_self r tl)
    have hstep : rateSeq s (some n) (r :: tl) =
        rateSeq (rateBook RFaults.ok s (some n) r).1 (some n) tl := by
      simp [rateSeq, List.foldl_cons]
    have heq := rateBook_ok_eq s n b r hb hr
    have hfind := findBookById_updateBookRating s n (b.total_votes + 1) (ratingStep b r) b hb
    have havg : ratingStep b r = (q + r) / ((k : Rat) + 1) := by
      unfold ratingStep
      rw [ha, hv]
      by_cases hk : k = 0
      · subst hk
        simp [hz rfl]
      · have hkq : (k : Rat) ≠ 0 := Nat.cast_ne_zero.mpr hk
        rw [div_mul_cancel₀ _ hkq]
        push_cast
        ring_nf
    obtain ⟨b', h1, h2, h3, h4⟩ := ih (rateBook RFaults.ok s (some n) r).1 n
      { b with total_votes := b.total_votes + 1, average_rating := ratingStep b r }
      (k + 1) (q + r)
      (by rw [heq]; exact hfind)
      (fun x hx => hval x (List.mem_cons_of_mem r hx))
      (by simpa using hv)
      (by simpa using havg)
      (by omega)
    refine ⟨b', by rw [hstep]; exact h1, by rw [h2, List.length_cons]; omega, ?_, ?_⟩
    · rw [h3, List.sum_cons, List.length_cons]
      push_cast
      ring_nf
    · intro hlen
      simp [List.length_cons] at hlen

/-! ### Claim theorems -/

/-- C3: for every existing book with state (total_votes = n, average_rating = a)
and every valid rating r, rateBook writes total_votes = n + 1 and
average_rating = (a * n + r) / (n + 1); applying ratings [4, 2] to a fresh
book yields total_votes = 2 and average_rating = 3, and applying rating 5
once to a fresh book yields total_votes = 1 and average_rating = 5. -/
theorem rateBook_weighted_mean :
    (∀ (s : Store) (n : Int) (b : Book) (r : Rat),
      findBookById s n = some b → ¬(r < 1 ∨ r > 5) →
      findBookById (rateBook RFaults.ok s (some n) r).1 n =
        some { b with
                total_votes := b.total_votes + 1,
                average_rating :=
                  (b.average_rating * (b.total_votes : Rat) + r) / ((b.total_votes : Rat) + 1) }) ∧
    (∃ b, findBookById (rateSeq store0 (some 1) [4, 2]) 1 = some b ∧
      b.total_votes = 2 ∧ b.average_rating = 3) ∧
    (∃ b, findBookById (rateSeq store0 (some 1) [5]) 1 = some b ∧
      b.total_votes = 1 ∧ b.average_rating = 5) := by
  refine ⟨?_, ?_, ?_⟩
  · intro s n b r hb hr
    rw [rateBook_ok_eq s n b r hb hr]
    have hcast : ((b.total_votes + 1 : Nat) : Rat) = (b.total_votes : Rat) + 1 := by
      push_cast
      ring
    rw [findBookById_updateBookRating s n (b.total_votes + 1) (ratingStep b r) b hb]
    simp only [ratingStep, hcast]
  · obtain ⟨b', h1, h2, h3, -⟩ := rateSeq_invariant_aux [4, 2] store0 1 book1 0 0 rfl
      (by intro x hx; simp at hx; rcases hx with rfl | rfl <;> decide)
      rfl (by norm_num [book1]) (fun _ => rfl)
    refine ⟨b', h1, by simpa using h2, ?_⟩
    rw [h3]
    norm_num
  · obtain ⟨b', h1, h2, h3, -⟩ := rateSeq_invariant_aux [5] store0 1 book1 0 0 rfl
      (by intro x hx; simp at hx; subst hx; decide)
      rfl (by norm_num [book1]) (fun _ => rfl)
    refine ⟨b', h1, by simpa using h2, ?_⟩
    rw [h3]
    norm_num

/-- Witness for C3: rating 5 applied to the fresh sample book. -/
theorem rateBook_weighted_mean_witness :
    findBookById store0 1 = some book1 ∧ ¬((5 : Rat) < 1 ∨ (5 : Rat) > 5) ∧
      findBookById (rateBook RFaults.ok store0 (some 1) 5).1 1 =
        some { book1 with
                total_votes := book1.total_votes + 1,
                average_rating :=
                  (book1.average_rating * (book1.total_votes : Rat) + 5) /
                    ((book1.total_votes : Rat) + 1) } :=
  ⟨by decide, by decide,
    rateBook_weighted_mean.1 store0 1 book1 5 (by decide) (by decide)⟩

/-- C4 counterexample: the rating 5/2 is not an integer in [1, 5], yet the
handler does not reject it — the call succeeds and mutates the book, because
the code only checks `rating < 1 || rating > 5`. -/
theorem rateBook_accepts_half_integer :
    (rateBook RFaults.ok store0 (some 1) (5 / 2)).2 ≠ Except.error ApiError.invalidArgument ∧
      findBookById (rateBook RFaults.ok store0 (some 1) (5 / 2)).1 1 =
        some { book1 with total_votes := 1, average_rating := 5 / 2 } := by
  have hr : ¬((5 / 2 : Rat) < 1 ∨ (5 / 2 : Rat) > 5) := by norm_num
  have heq := rateBook_ok_eq store0 1 book1 (5 / 2) rfl hr
  constructor
  · rw [heq]
    simp
  · have h1 : (rateBook RFaults.ok store0 (some 1) (5 / 2)).1 =
        updateBookRating store0 1 (book1.total_votes + 1) (ratingStep book1 (5 / 2)) := by
      rw [heq]
    rw [h1, findBookById_updateBookRating store0 1 (book1.total_votes + 1)
      (ratingStep book1 (5 / 2)) book1 rfl]
    have h2 : ratingStep book1 (5 / 2) = 5 / 2 := by
      unfold ratingStep
      norm_num [book1]
    rw [h2]
    simp [book1]

/-- C4 (amended): for every rating value lower than 1 or greater than 5,
rateBook fails with InvalidArgument before any store access — for every
fault environment, the store is returned unchanged; in particular
rating = 0 and rating = 6 fail this way.  (Non-integer ratings inside
[1, 5] are accepted.) -/
theorem rateBook_rejects_out_of_range (flt : RFaults) (s : Store) (idp : Option Int) (r : Rat)
    (h : r < 1 ∨ r > 5) :
    rateBook flt s idp r = (s, Except.error ApiError.invalidArgument) := by
  unfold rateBook
  rw [if_pos h]

/-- Witness for C4 (amended): ratings 0 and 6 on the sample store. -/
theorem rateBook_rejects_out_of_range_witness :
    ((0 : Rat) < 1 ∨ (0 : Rat) > 5) ∧
      rateBook RFaults.ok store0 (some 1) 0 = (store0, Except.error ApiError.invalidArgument) ∧
      ((6 : Rat) < 1 ∨ (6 : Rat) > 5) ∧
      rateBook RFaults.ok store0 (some 1) 6 = (store0, Except.error ApiError.invalidArgument) :=
  ⟨Or.inl (by decide),
    rateBook_rejects_out_of_range RFaults.ok store0 (some 1) 0 (Or.inl (by decide)),
    Or.inr (by decide),
    rateBook_rejects_out_of_range RFaults.ok store0 (some 1) 6 (Or.inr (by decide))⟩

/-- C5 counterexample: book id 7 exists in no book of the sample store, yet
rateBook with rating 0 against it fails with InvalidArgument, not NotFound —
the range check runs before the existence lookup. -/
theorem rateBook_missing_book_invalid_rating :
    findBookById store0 7 = none ∧
      (rateBook RFaults.ok store0 (some 7) 0).2 = Except.error ApiError.invalidArgument ∧
      (rateBook RFaults.ok store0 (some 7) 0).2 ≠ Except.error ApiError.notFound := by
  refine ⟨by decide, by decide, by decide⟩

/-- C5 (amended): for every book id that refers to no existing book,
addComment fails with NotFound and performs no store mutation, and rateBook
does so as well provided the rating passes the range check (an out-of-range
rating is rejected as InvalidArgument first, also without mutation). -/
theorem missing_book_not_found (s : Store) (n : Int) (text : String) (r : Rat)
    (hn : findBookById s n = none) (hr : ¬(r < 1 ∨ r > 5)) :
    addComment CFaults.ok s (some n) text = (s, Except.error ApiError.notFound) ∧
      rateBook RFaults.ok s (some n) r = (s, Except.error ApiError.notFound) := by
  constructor
  · unfold addComment
    simp only [CFaults.ok, Bool.false_eq_true, if_false, hn]
  · unfold rateBook
    rw [if_neg hr]
    simp only [RFaults.ok, Bool.false_eq_true, if_false, hn]

/-- Witness for C5 (amended): book id 7 on the sample store, rating 3. -/
theorem missing_book_not_found_witness :
    findBookById store0 7 = none ∧ ¬((3 : Rat) < 1 ∨ (3 : Rat) > 5) ∧
      addComment CFaults.ok store0 (some 7) "x" = (store0, Except.error ApiError.notFound) ∧
      rateBook RFaults.ok store0 (some 7) 3 = (store0, Except.error ApiError.notFound) :=
  ⟨by decide, by decide,
    (missing_book_not_found store0 7 "x" 3 (by decide) (by decide)).1,
    (missing_book_not_found store0 7 "x" 3 (by decide) (by decide)).2⟩

/-- C10 counterexample: with an unparseable book id (parseInt yields NaN,
embedded as `none`) and rating 0, rateBook surfaces InvalidArgument, not
NotFound — the claim fails for calls whose rating is out of range. -/
theorem rateBook_nan_id_invalid_rating :
    (rateBook RFaults.ok store0 none 0).2 = Except.error ApiError.invalidArgument ∧
      (rateBook RFaults.ok store0 none 0).2 ≠ Except.error ApiError.notFound := by
  refine ⟨by decide, by decide⟩

/-- C10 (amended): for every unparseable book-id path parameter (parseInt
yields NaN, embedded as `none`), addComment surfaces NotFound with no store
mutation, and rateBook does so as well provided the rating passes the range
check (an out-of-range rating yields InvalidArgument first, also without
mutation); neither operation has a distinct invalid-id condition. -/
theorem unparseable_id_not_found (flt : CFaults) (flt2 : RFaults) (s : Store)
    (text : String) (r : Rat) (hr : ¬(r < 1 ∨ r > 5)) :
    addComment flt s none text = (s, Except.error ApiError.notFound) ∧
      rateBook flt2 s none r = (s, Except.error ApiError.notFound) := by
  constructor
  · rfl
  · unfold rateBook
    rw [if_neg hr]

/-- Witness for C10 (amended): rating 3 on the sample store. -/
theorem unparseable_id_not_found_witness :
    ¬((3 : Rat) < 1 ∨ (3 : Rat) > 5) ∧
      addComment CFaults.ok store0 none "x" = (store0, Except.error ApiError.notFound) ∧
      rateBook RFaults.ok store0 none 3 = (store0, Except.error ApiError.notFound) :=
  ⟨by decide,
    (unparseable_id_not_found CFaults.ok RFaults.ok store0 "x" 3 (by decide)).1,
    (unparseable_id_not_found CFaults.ok RFaults.ok store0 "x" 3 (by decide)).2⟩

theorem mem_books_updateBookRating (s : Store) (n : Int) (v : Nat) (a : Rat) (b2 : Book)
    (hne : b2.id ≠ n) :
    b2 ∈ (updateBookRating s n v a).books ↔ b2 ∈ s.books := by
  unfold updateBookRating
  simp only [List.mem_map]
  constructor
  · rintro ⟨x, hx, he⟩
    by_cases hid : (x.id == n)
    · rw [if_pos hid] at he
      have : b2.id = n := by
        rw [← he]
        simpa using hid
      exact absurd this hne
    · rw [if_neg hid] at he
      rwa [← he]
  · intro h
    refine ⟨b2, h, ?_⟩
    rw [if_neg]
    simpa using hne

/-- C9: rateBook modifies only total_votes and average_rating of the targeted
book — every other field of that book is unchanged, the comments table is
untouched, and books with a different id are exactly the ones there before. -/
theorem rateBook_frame (s : Store) (n : Int) (b : Book) (r : Rat)
    (hb : findBookById s n = some b) (hr : ¬(r < 1 ∨ r > 5)) :
    ∃ b', findBookById (rateBook RFaults.ok s (some n) r).1 n = some b' ∧
      b'.id = b.id ∧ b'.title = b.title ∧ b'.author = b.author ∧
      b'.image_url = b.image_url ∧ b'.description = b.description ∧
      b'.pages = b.pages ∧ b'.year = b.year ∧ b'.category_id = b.category_id ∧
      b'.age_range = b.age_range ∧
      (rateBook RFaults.ok s (some n) r).1.comments = s.comments ∧
      (rateBook RFaults.ok s (some n) r).1.books.length = s.books.length ∧
      ∀ b2 : Book, b2.id ≠ n →
        (b2 ∈ (rateBook RFaults.ok s (some n) r).1.books ↔ b2 ∈ s.books) := by
  have heq := rateBook_ok_eq s n b r hb hr
  have h1 : (rateBook RFaults.ok s (some n) r).1 =
      updateBookRating s n (b.total_votes + 1) (ratingStep b r) := by
    rw [heq]
  rw [h1]
  refine ⟨{ b with total_votes := b.total_votes + 1, average_rating := ratingStep b r },
    findBookById_updateBookRating s n (b.total_votes + 1) (ratingStep b r) b hb,
    rfl, rfl, rfl, rfl, rfl, rfl, rfl, rfl, rfl, rfl, ?_, ?_⟩
  · simp [updateBookRating]
  · intro b2 hne
    exact mem_books_updateBookRating s n (b.total_votes + 1) (ratingStep b r) b2 hne

/-- Witness for C9: rating 3 on the sample store. -/
theorem rateBook_frame_witness :
    findBookById store0 1 = some book1 ∧ ¬((3 : Rat) < 1 ∨ (3 : Rat) > 5) ∧
      ∃ b', findBookById (rateBook RFaults.ok store0 (some 1) 3).1 1 = some b' ∧
        b'.id = book1.id ∧ b'.title = book1.title ∧ b'.author = book1.author ∧
        b'.image_url = book1.image_url ∧ b'.description = book1.description ∧
        b'.pages = book1.pages ∧ b'.year = book1.year ∧ b'.category_id = book1.category_id ∧
        b'.age_range = book1.age_range ∧
        (rateBook RFaults.ok store0 (some 1) 3).1.comments = store0.comments ∧
        (rateBook RFaults.ok store0 (some 1) 3).1.books.length = store0.books.length ∧
        ∀ b2 : Book, b2.id ≠ 1 →
          (b2 ∈ (rateBook RFaults.ok store0 (some 1) 3).1.books ↔ b2 ∈ store0.books) :=
  ⟨by decide, by decide, rateBook_frame store0 1 book1 3 (by decide) (by decide)⟩

/-- C6: after every sequence of successful rateBook calls on a book starting
from (total_votes = 0, average_rating = 0), average_rating is the arithmetic
mean of the ratings submitted so far and total_votes is their count — the two
fields hold simultaneously in the same stored book after every such
sequence, and hence after every prefix of a longer sequence. -/
theorem rateSeq_mean (s : Store) (n : Int) (b : Book) (rs : List Rat)
    (hb : findBookById s n = some b) (hv : b.total_votes = 0) (ha : b.average_rating = 0)
    (hval : ∀ r ∈ rs, ¬(r < 1 ∨ r > 5)) :
    ∃ b', findBookById (rateSeq s (some n) rs) n = some b' ∧
      b'.total_votes = rs.length ∧ b'.average_rating = rs.sum / (rs.length : Rat) := by
  obtain ⟨b', h1, h2, h3, -⟩ := rateSeq_invariant_aux rs s n b 0 0 hb hval hv
    (by simp [ha]) (fun _ => rfl)
  refine ⟨b', h1, by simpa using h2, ?_⟩
  rw [h3]
  norm_num

/-- Witness for C6: the sequence [4, 2] on the fresh sample book. -/
theorem rateSeq_mean_witness :
    findBookById store0 1 = some book1 ∧ book1.total_votes = 0 ∧ book1.average_rating = 0 ∧
      (∀ r ∈ [(4 : Rat), 2], ¬(r < 1 ∨ r > 5)) ∧
      ∃ b', findBookById (rateSeq store0 (some 1) [4, 2]) 1 = some b' ∧
        b'.total_votes = ([(4 : Rat), 2]).length ∧
        b'.average_rating = ([(4 : Rat), 2]).sum / (([(4 : Rat), 2]).length : Rat) :=
  ⟨by decide, rfl, rfl, by intro r hr; simp at hr; rcases hr with rfl | rfl <;> decide,
    rateSeq_mean store0 1 book1 [4, 2] (by decide) rfl rfl
      (by intro r hr; simp at hr; rcases hr with rfl | rfl <;> decide)⟩

/-- C1: for every book whose comment count is at most 20 before the call,
addComment adds exactly one comment — the fresh comment row, absent before,
is present after, and every stored comment of the book was there before or
is that row — and the resulting count is min(previousCount + 1, 20); in
particular the count never exceeds 20 after the call. -/
theorem addComment_cap (s : Store) (n : Int) (text : String) (b : Book)
    (hwf : s.WF) (hb : findBookById s n = some b)
    (hcap : (bookComments s n).length ≤ 20) :
    (∃ cs, (addComment CFaults.ok s (some n) text).2 = Except.ok (b, cs)) ∧
      (bookComments (addComment CFaults.ok s (some n) text).1 n).length
        = min ((bookComments s n).length + 1) 20 ∧
      (bookComments (addComment CFaults.ok s (some n) text).1 n).length ≤ 20 ∧
      newComment s n text ∈ bookComments (addComment CFaults.ok s (some n) text).1 n ∧
      newComment s n text ∉ bookComments s n ∧
      ∀ c ∈ bookComments (addComment CFaults.ok s (some n) text).1 n,
        c = newComment s n text ∨ c ∈ bookComments s n := by
  obtain ⟨s', heq, hcase⟩ := addComment_spec s n text b hb
  have h1 : (addComment CFaults.ok s (some n) text).1 = s' := by rw [heq]
  have h2 : (addComment CFaults.ok s (some n) text).2 =
      Except.ok (b, bookComments s' n) := by rw [heq]
  rw [h1, h2]
  have hnotin : newComment s n text ∉ bookComments s n := by
    intro hmem
    have h3 := hwf.2.1 _ (List.mem_of_mem_filter hmem)
    simp [newComment] at h3
  refine ⟨⟨bookComments s' n, rfl⟩, ?_⟩
  rcases hcase with ⟨hle, rfl⟩ | ⟨hgt, o, homem, hmin, rfl⟩
  · rw [bookComments_insertComment]
    have hlenapp : (bookComments s n ++ [newComment s n text]).length
        = (bookComments s n).length + 1 := by simp
    refine ⟨by omega, by omega, by simp, hnotin, ?_⟩
    intro c hc
    rcases List.mem_append.mp hc with h | h
    · exact Or.inr h
    · simp at h
      exact Or.inl h
  · have hL21 : (bookComments s n).length = 20 := by omega
    have hnd : ((bookComments (insertComment s n text) n).map Comment.id).Nodup := by
      have hwf1 := insertComment_WF s n text hwf
      have hsub : (bookComments (insertComment s n text) n).Sublist
          (insertComment s n text).comments := List.filter_sublist _
      exact List.Nodup.sublist (hsub.map Comment.id) hwf1.1.1
    rw [bookComments_insertComment] at hnd
    obtain ⟨c0, hc0⟩ : ∃ c0, c0 ∈ bookComments s n := by
      cases hL : bookComments s n with
      | nil => rw [hL] at hL21; simp at hL21
      | cons x xs => exact ⟨x, List.mem_cons_self x xs⟩
    have hc0old : c0.created_at < s.now := hwf.2.2 c0 (List.mem_of_mem_filter hc0)
    have honew : o ≠ newComment s n text := by
      intro he
      have h4 := hmin c0 (List.mem_append.mpr (Or.inl hc0))
      rw [he] at h4
      simp [newComment] at h4
      omega
    have hoid : o.id ≠ (newComment s n text).id := by
      intro he
      exact honew (comment_id_inj hnd homem (List.mem_append.mpr (Or.inr (by simp))) he)
    rw [bookComments_deleteComment, bookComments_insertComment]
    have hflen := length_filter_ne_of_mem hnd homem
    have hlenapp : (bookComments s n ++ [newComment s n text]).length
        = (bookComments s n).length + 1 := by simp
    refine ⟨by omega, by omega, ?_, hnotin, ?_⟩
    · exact mem_filter_ne (List.mem_append.mpr (Or.inr (by simp))) (fun he => hoid he.symm)
    · intro c hc
      rcases List.mem_append.mp (List.mem_of_mem_filter hc) with h | h
      · exact Or.inr h
      · simp at h
        exact Or.inl h

/-- Witness for C1: a comment on the fresh sample store. -/
theorem addComment_cap_witness :
    store0.WF ∧ findBookById store0 1 = some book1 ∧ (bookComments store0 1).length ≤ 20 ∧
      ((∃ cs, (addComment CFaults.ok store0 (some 1) "x").2 = Except.ok (book1, cs)) ∧
        (bookComments (addComment CFaults.ok store0 (some 1) "x").1 1).length
          = min ((bookComments store0 1).length + 1) 20 ∧
        (bookComments (addComment CFaults.ok store0 (some 1) "x").1 1).length ≤ 20 ∧
        newComment store0 1 "x" ∈ bookComments (addComment CFaults.ok store0 (some 1) "x").1 1 ∧
        newComment store0 1 "x" ∉ bookComments store0 1 ∧
        ∀ c ∈ bookComments (addComment CFaults.ok store0 (some 1) "x").1 1,
          c = newComment store0 1 "x" ∨ c ∈ bookComments store0 1) :=
  ⟨by decide, by decide, by decide,
    addComment_cap store0 1 "x" book1 (by decide) (by decide) (by decide)⟩

/-- C2: for a book holding exactly 20 comments with strictly increasing
creation timestamps, addComment yields exactly 20 comments for that book:
the stored list becomes the original list minus its oldest element plus the
newly inserted comment — the evicted comment is exactly the single earliest
one, never more and never fewer — and the response is a success. -/
theorem addComment_evicts_oldest (s : Store) (n : Int) (text : String) (b : Book)
    (c0 : Comment) (rest : List Comment)
    (hwf : s.WF) (hb : findBookById s n = some b)
    (hL : bookComments s n = c0 :: rest)
    (hlen : (bookComments s n).length = 20)
    (hsorted : (bookComments s n).Pairwise (fun a c => a.created_at < c.created_at)) :
    bookComments (addComment CFaults.ok s (some n) text).1 n
        = rest ++ [newComment s n text] ∧
      (bookComments (addComment CFaults.ok s (some n) text).1 n).length = 20 ∧
      c0 ∉ bookComments (addComment CFaults.ok s (some n) text).1 n ∧
      newComment s n text ∈ bookComments (addComment CFaults.ok s (some n) text).1 n ∧
      (∃ cs, (addComment CFaults.ok s (some n) text).2 = Except.ok (b, cs)) := by
  obtain ⟨s', heq, hcase⟩ := addComment_spec s n text b hb
  have h1 : (addComment CFaults.ok s (some n) text).1 = s' := by rw [heq]
  have h2 : (addComment CFaults.ok s (some n) text).2 =
      Except.ok (b, bookComments s' n) := by rw [heq]
  rw [h1, h2]
  rcases hcase with ⟨hle, rfl⟩ | ⟨hgt, o, homem, hmin, rfl⟩
  · omega
  · have hnd : ((bookComments s n ++ [newComment s n text]).map Comment.id).Nodup := by
      have hwf1 := insertComment_WF s n text hwf
      have hsub : (bookComments (insertComment s n text) n).Sublist
          (insertComment s n text).comments := List.filter_sublist _
      have h3 := List.Nodup.sublist (hsub.map Comment.id) hwf1.1.1
      rwa [bookComments_insertComment] at h3
    have hc0mem : c0 ∈ bookComments s n := by
      rw [hL]
      exact List.mem_cons_self _ _
    have hc0now : c0.created_at < s.now := hwf.2.2 c0 (List.mem_of_mem_filter hc0mem)
    have hrest : ∀ c ∈ rest, c0.created_at < c.created_at := by
      rw [hL] at hsorted
      exact (List.pairwise_cons.mp hsorted).1
    have ho : o = c0 := by
      rcases List.mem_append.mp homem with hoL | honew
      · rw [hL] at hoL
        rcases List.mem_cons.mp hoL with rfl | horest
        · rfl
        · have h5 := hmin c0 (List.mem_append.mpr (Or.inl hc0mem))
          have h6 := hrest o horest
          omega
      · simp only [List.mem_singleton] at honew
        subst honew
        have h5 := hmin c0 (List.mem_append.mpr (Or.inl hc0mem))
        simp only [newComment] at h5
        omega
    subst ho
    have hnd2 : (List.map Comment.id ((o :: rest) ++ [newComment s n text])).Nodup := by
      rw [← hL]
      exact hnd
    rw [List.cons_append, List.map_cons, List.nodup_cons] at hnd2
    have hfeq : ((o :: rest) ++ [newComment s n text]).filter (fun c => c.id != o.id)
        = rest ++ [newComment s n text] := by
      rw [List.cons_append, List.filter_cons]
      simp only [bne_self_eq_false, Bool.false_eq_true, if_false]
      rw [List.filter_eq_self]
      intro c hc
      simp only [bne_iff_ne, ne_eq, decide_eq_true_eq]
      intro he
      exact hnd2.1 (he ▸ List.mem_map_of_mem Comment.id hc)
    have hmain : bookComments (deleteComment (insertComment s n text) o.id) n
        = rest ++ [newComment s n text] := by
      rw [bookComments_deleteComment, bookComments_insertComment, hL]
      exact hfeq
    rw [hL] at hlen
    refine ⟨hmain, ?_, ?_, ?_, ⟨bookComments
      (deleteComment (insertComment s n text) o.id) n, rfl⟩⟩
    · rw [hmain]
      simp only [List.length_append, List.length_cons, List.length_nil] at *
      omega
    · rw [hmain]
      intro hc
      exact hnd2.1 (List.mem_map_of_mem Comment.id hc)
    · rw [hmain]
      simp

/-- Witness for C2: the sample store whose book holds 20 comments with
timestamps 1 < 2 < ... < 20. -/
theorem addComment_evicts_oldest_witness :
    store20.WF ∧ findBookById store20 1 = some book1 ∧
      bookComments store20 1 = mkComment 1 :: (List.range 19).map (fun i => mkComment (i + 2)) ∧
      (bookComments store20 1).length = 20 ∧
      (bookComments store20 1).Pairwise (fun a c => a.created_at < c.created_at) ∧
      (bookComments (addComment CFaults.ok store20 (some 1) "x").1 1
          = (List.range 19).map (fun i => mkComment (i + 2)) ++ [newComment store20 1 "x"] ∧
        (bookComments (addComment CFaults.ok store20 (some 1) "x").1 1).length = 20 ∧
        mkComment 1 ∉ bookComments (addComment CFaults.ok store20 (some 1) "x").1 1 ∧
        newComment store20 1 "x" ∈ bookComments (addComment CFaults.ok store20 (some 1) "x").1 1 ∧
        (∃ cs, (addComment CFaults.ok store20 (some 1) "x").2 = Except.ok (book1, cs))) :=
  ⟨by decide, by decide, by decide, by decide, by decide,
    addComment_evicts_oldest store20 1 "x" book1 (mkComment 1)
      ((List.range 19).map (fun i => mkComment (i + 2)))
      (by decide) (by decide) (by decide) (by decide) (by decide)⟩

/-- Fault environment in which only the eviction delete call fails. -/
def deleteFault : CFaults := ⟨false, false, false, true, false⟩

/-- C7: the comment handler discards the result of the eviction delete, so a
failing delete does not short-circuit the operation — at a book holding 20
comments the handler still reaches the read-back and answers success while
21 comments remain stored, exceeding the cap.  Every other store call of the
handler does short-circuit: a failing lookup yields NotFound, and a failing
insert, list read, or read-back yields a store-failure response at the store
state reached so far. -/
theorem addComment_swallows_delete_failure :
    ((addComment deleteFault store20 (some 1) "x").2 =
        Except.ok (book1, bookComments (addComment deleteFault store20 (some 1) "x").1 1) ∧
      (bookComments (addComment deleteFault store20 (some 1) "x").1 1).length = 21) ∧
      (addComment ⟨true, false, false, false, false⟩ store20 (some 1) "x"
          = (store20, Except.error ApiError.notFound) ∧
        addComment ⟨false, true, false, false, false⟩ store20 (some 1) "x"
          = (store20, Except.error ApiError.storeFailure) ∧
        addComment ⟨false, false, true, false, false⟩ store20 (some 1) "x"
          = (insertComment store20 1 "x", Except.error ApiError.storeFailure) ∧
        addComment ⟨false, false, false, false, true⟩ store20 (some 1) "x"
          = (deleteComment (insertComment store20 1 "x") 1,
              Except.error ApiError.storeFailure)) := by
  refine ⟨⟨by decide, by decide⟩, by decide, by decide, by decide, by decide⟩

/-- After a successful addComment, the book's stored comments are some of
the previously stored comments followed by the fresh comment row. -/
theorem addComment_shape (s : Store) (n : Int) (text : String) (b : Book)
    (hwf : s.WF) (hb : findBookById s n = some b) :
    ∃ old1, bookComments (addComment CFaults.ok s (some n) text).1 n
        = old1 ++ [newComment s n text] ∧
      ∀ c ∈ old1, c ∈ s.comments := by
  obtain ⟨s', heq, hcase⟩ := addComment_spec s n text b hb
  have h1 : (addComment CFaults.ok s (some n) text).1 = s' := by rw [heq]
  rw [h1]
  rcases hcase with ⟨hle, rfl⟩ | ⟨hgt, o, homem, hmin, rfl⟩
  · refine ⟨bookComments s n, bookComments_insertComment s n text, ?_⟩
    intro c hc
    exact List.mem_of_mem_filter hc
  · have hnd : ((bookComments s n ++ [newComment s n text]).map Comment.id).Nodup := by
      have hwf1 := insertComment_WF s n text hwf
      have hsub : (bookComments (insertComment s n text) n).Sublist
          (insertComment s n text).comments := List.filter_sublist _
      have h3 := List.Nodup.sublist (hsub.map Comment.id) hwf1.1.1
      rwa [bookComments_insertComment] at h3
    have hL0 : bookComments s n ≠ [] := by
      intro h0
      rw [h0] at hgt
      simp at hgt
    obtain ⟨c0, hc0⟩ : ∃ c0, c0 ∈ bookComments s n := by
      cases h0 : bookComments s n with
      | nil => exact absurd h0 hL0
      | cons x xs => exact ⟨x, List.mem_cons_self x xs⟩
    have hc0old : c0.created_at < s.now := hwf.2.2 c0 (List.mem_of_mem_filter hc0)
    have honew : o ≠ newComment s n text := by
      intro he
      have h4 := hmin c0 (List.mem_append.mpr (Or.inl hc0))
      rw [he] at h4
      simp only [newComment] at h4
      omega
    have hkeep : ((newComment s n text).id != o.id) = true := by
      simp only [bne_iff_ne, ne_eq]
      intro he
      exact honew (comment_id_inj hnd homem
        (List.mem_append.mpr (Or.inr (by simp))) he.symm)
    refine ⟨(bookComments s n).filter (fun c => c.id != o.id), ?_, ?_⟩
    · rw [bookComments_deleteComment, bookComments_insertComment, List.filter_append]
      congr 1
      simp [List.filter_cons, hkeep]
    · intro c hc
      exact List.mem_of_mem_filter (List.mem_of_mem_filter hc)

/-- The comment handler leaves the books table unchanged and advances the
comment serial and the clock by one. -/
theorem addComment_preserves (s : Store) (n : Int) (text : String) (b : Book)
    (hb : findBookById s n = some b) :
    (addComment CFaults.ok s (some n) text).1.books = s.books ∧
      (addComment CFaults.ok s (some n) text).1.nextCommentId = s.nextCommentId + 1 ∧
      (addComment CFaults.ok s (some n) text).1.now = s.now + 1 := by
  obtain ⟨s', heq, hcase⟩ := addComment_spec s n text b hb
  have h1 : (addComment CFaults.ok s (some n) text).1 = s' := by rw [heq]
  rw [h1]
  rcases hcase with ⟨-, rfl⟩ | ⟨-, o, -, -, rfl⟩ <;> exact ⟨rfl, rfl, rfl⟩

theorem findBookById_eq_of_books (s t : Store) (hbk : t.books = s.books) (n : Int) :
    findBookById t n = findBookById s n := by
  unfold findBookById
  rw [hbk]

/-- C8: neither rateBook nor addComment is idempotent — two identical
rateBook calls add two votes (total_votes grows by 2), and two identical
addComment calls store two comments with distinct ids, both still present
after the second call even when the cap forces evictions. -/
theorem handlers_not_idempotent :
    (∀ (s : Store) (n : Int) (b : Book) (r : Rat),
      findBookById s n = some b → ¬(r < 1 ∨ r > 5) →
      ∃ b', findBookById
          (rateBook RFaults.ok (rateBook RFaults.ok s (some n) r).1 (some n) r).1 n = some b' ∧
        b'.total_votes = b.total_votes + 2) ∧
    (∀ (s : Store) (n : Int) (b : Book) (text : String),
      s.WF → findBookById s n = some b →
      newComment s n text ∈ bookComments
        (addComment CFaults.ok (addComment CFaults.ok s (some n) text).1 (some n) text).1 n ∧
      newComment (addComment CFaults.ok s (some n) text).1 n text ∈ bookComments
        (addComment CFaults.ok (addComment CFaults.ok s (some n) text).1 (some n) text).1 n ∧
      (newComment s n text).id ≠
        (newComment (addComment CFaults.ok s (some n) text).1 n text).id) := by
  constructor
  · intro s n b r hb hr
    have h1 : (rateBook RFaults.ok s (some n) r).1 =
        updateBookRating s n (b.total_votes + 1) (ratingStep b r) := by
      rw [rateBook_ok_eq s n b r hb hr]
    obtain ⟨b1, hb1, hbv⟩ : ∃ b1, findBookById (rateBook RFaults.ok s (some n) r).1 n
        = some b1 ∧ b1.total_votes = b.total_votes + 1 := by
      rw [h1]
      exact ⟨_, findBookById_updateBookRating s n (b.total_votes + 1) (ratingStep b r) b hb, rfl⟩
    have h2 : (rateBook RFaults.ok (rateBook RFaults.ok s (some n) r).1 (some n) r).1 =
        updateBookRating (rateBook RFaults.ok s (some n) r).1 n
          (b1.total_votes + 1) (ratingStep b1 r) := by
      rw [rateBook_ok_eq (rateBook RFaults.ok s (some n) r).1 n b1 r hb1 hr]
    refine ⟨_, by rw [h2]; exact findBookById_updateBookRating _ n _ _ b1 hb1, ?_⟩
    simp only [hbv]
  · intro s n b text hwf hb
    obtain ⟨old1, hsh1, hold1⟩ := addComment_shape s n text b hwf hb
    have hwf1 := addComment_WF s n text b hwf hb
    have hpres := addComment_preserves s n text b hb
    have hb1 : findBookById (addComment CFaults.ok s (some n) text).1 n = some b := by
      rw [findBookById_eq_of_books s _ hpres.1 n]
      exact hb
    have hidne : (newComment s n text).id ≠
        (newComment (addComment CFaults.ok s (some n) text).1 n text).id := by
      simp [newComment, hpres.2.1]
    have hmem1 : newComment s n text ∈
        bookComments (addComment CFaults.ok s (some n) text).1 n := by
      rw [hsh1]
      simp
    obtain ⟨s2, heq2, hcase2⟩ :=
      addComment_spec (addComment CFaults.ok s (some n) text).1 n text b hb1
    have h21 : (addComment CFaults.ok (addComment CFaults.ok s (some n) text).1
        (some n) text).1 = s2 := by
      rw [heq2]
    rw [h21]
    rcases hcase2 with ⟨hle, rfl⟩ | ⟨hgt, o2, ho2mem, ho2min, rfl⟩
    · rw [bookComments_insertComment]
      exact ⟨List.mem_append.mpr (Or.inl hmem1),
        List.mem_append.mpr (Or.inr (by simp)), hidne⟩
    · have hold1ne : old1 ≠ [] := by
        intro h0
        rw [hsh1, h0] at hgt
        simp at hgt
      obtain ⟨c1, hc1⟩ : ∃ c1, c1 ∈ old1 := by
        cases h0 : old1 with
        | nil => exact absurd h0 hold1ne
        | cons x xs => exact ⟨x, List.mem_cons_self x xs⟩
      have hc1ts : c1.created_at < s.now := hwf.2.2 c1 (hold1 c1 hc1)
      have hc1memL1 : c1 ∈ bookComments (addComment CFaults.ok s (some n) text).1 n := by
        rw [hsh1]
        exact List.mem_append.mpr (Or.inl hc1)
      have ho2ts := ho2min c1 (List.mem_append.mpr (Or.inl hc1memL1))
      have hne1 : o2 ≠ newComment s n text := by
        intro he
        rw [he] at ho2ts
        simp only [newComment] at ho2ts
        omega
      have hne2 : o2 ≠ newComment (addComment CFaults.ok s (some n) text).1 n text := by
        intro he
        rw [he] at ho2ts
        simp only [newComment, hpres.2.2] at ho2ts
        omega
      have hnd2 : ((bookComments (addComment CFaults.ok s (some n) text).1 n ++
          [newComment (addComment CFaults.ok s (some n) text).1 n text]).map Comment.id).Nodup := by
        have hwf2 := insertComment_WF _ n text hwf1
        have hsub : (bookComments (insertComment
            (addComment CFaults.ok s (some n) text).1 n text) n).Sublist
            (insertComment (addComment CFaults.ok s (some n) text).1 n text).comments :=
          List.filter_sublist _
        have h3 := List.Nodup.sublist (hsub.map Comment.id) hwf2.1.1
        rwa [bookComments_insertComment] at h3
      rw [bookComments_deleteComment, bookComments_insertComment]
      refine ⟨?_, ?_, hidne⟩
      · refine mem_filter_ne (List.mem_append.mpr (Or.inl hmem1)) ?_
        intro he
        exact hne1 (comment_id_inj hnd2 ho2mem
          (List.mem_append.mpr (Or.inl hmem1)) he.symm)
      · refine mem_filter_ne (List.mem_append.mpr (Or.inr (by simp))) ?_
        intro he
        exact hne2 (comment_id_inj hnd2 ho2mem
          (List.mem_append.mpr (Or.inr (by simp))) he.symm)

/-- Witness for C8: rating 3 twice and comment "x" twice on the sample store. -/
theorem handlers_not_idempotent_witness :
    (findBookById store0 1 = some book1 ∧ ¬((3 : Rat) < 1 ∨ (3 : Rat) > 5) ∧
      ∃ b', findBookById
          (rateBook RFaults.ok (rateBook RFaults.ok store0 (some 1) 3).1 (some 1) 3).1 1
            = some b' ∧
        b'.total_votes = book1.total_votes + 2) ∧
    (store0.WF ∧ findBookById store0 1 = some book1 ∧
      newComment store0 1 "x" ∈ bookComments
        (addComment CFaults.ok (addComment CFaults.ok store0 (some 1) "x").1 (some 1) "x").1 1 ∧
      newComment (addComment CFaults.ok store0 (some 1) "x").1 1 "x" ∈ bookComments
        (addComment CFaults.ok (addComment CFaults.ok store0 (some 1) "x").1 (some 1) "x").1 1 ∧
      (newComment store0 1 "x").id ≠
        (newComment (addComment CFaults.ok store0 (some 1) "x").1 1 "x").id) :=
  ⟨⟨by decide, by decide,
      handlers_not_idempotent.1 store0 1 book1 3 (by decide) (by decide)⟩,
    ⟨by decide, by decide,
      handlers_not_idempotent.2 store0 1 book1 "x" (by decide) (by decide)⟩⟩

end BookApp
